import Mathlib

/-!
Shallow embedding of the OpenBook v2 client library (crates `openbook` and `bin`).

Conventions used throughout:
* Machine integers are modelled as `Nat` (unsigned) or `Int` (signed), with an
  explicit `% 2^64` (or `% 2^32`) wherever the Rust code can wrap in release
  builds.
* Rust `f64` arithmetic on the in-range values that the conversion engine
  manipulates is modelled as exact arithmetic over `ℚ`; the special cases that
  matter to the claims (division by zero producing an infinity, and the
  saturating behaviour of Rust `as` casts from `f64` to integers, where
  out-of-range values clamp and NaN maps to 0) are modelled explicitly.
* Effects are made explicit: the clock (`get_unix_secs`), the randomly drawn
  client order id (`rand::random::<u64>()`), and the lists returned by the two
  remote program-account scans are passed as arguments.
* Public keys are opaque identifiers, modelled as `Nat`.
-/

namespace OpenBook

/-- Reduction modulo `2^64`, the wrap-around of Rust `u64` arithmetic in release builds. -/
def u64Mod (n : Nat) : Nat := n % 2 ^ 64

/-- Reduction modulo `2^32`, the wrap-around of Rust `u32` arithmetic in release builds. -/
def u32Mod (n : Nat) : Nat := n % 2 ^ 32

/-- Rust `as u64` applied to an `i64` value: two's-complement reinterpretation. -/
def i64AsU64 (i : Int) : Nat := (i % (2 ^ 64 : Int)).toNat

/-- Rust `as i64` applied to a `u64` value: two's-complement reinterpretation. -/
def u64AsI64 (n : Nat) : Int := if n < 2 ^ 63 then (n : Int) else (n : Int) - 2 ^ 64

/-- Truncation toward zero of a rational number, the rounding used by Rust
`as` casts from `f64` to an integer type. -/
def ratTrunc (x : ℚ) : Int := if x < 0 then -⌊(-x : ℚ)⌋ else ⌊x⌋

/-- Rust `as i64` applied to a finite `f64` value: truncate toward zero,
saturating at the bounds of `i64`. -/
def i64SatCast (x : ℚ) : Int :=
  if ratTrunc x < -(2 ^ 63) then -(2 ^ 63)
  else if 2 ^ 63 - 1 < ratTrunc x then 2 ^ 63 - 1
  else ratTrunc x

/-- Rust `as u64` applied to a finite `f64` value: truncate toward zero,
saturating at the bounds of `u64`. -/
def u64SatCast (x : ℚ) : Nat :=
  if ratTrunc x < 0 then 0
  else if 2 ^ 64 - 1 < ratTrunc x then 2 ^ 64 - 1
  else (ratTrunc x).toNat

/-- Public keys (Solana `Pubkey`) are opaque 32-byte identifiers; the embedding
only ever compares them, so they are modelled as `Nat`. -/
abbrev Pubkey := Nat

/-- Stand-in for the fixed OpenBook v2 program id `openbook_v2::id()`. -/
def openbookProgramId : Pubkey := 1

/-- Stand-in for the fixed SPL token program id `Token::id()`. -/
def tokenProgramId : Pubkey := 2

/-- Order side, from `openbook_v2::state::Side`. -/
inductive Side where
  | bid
  | ask
deriving DecidableEq, Repr

/-- Order type, from `openbook_v2::state::PlaceOrderType`. -/
inductive PlaceOrderType where
  | limit
  | immediateOrCancel
  | postOnly
  | market
  | postOnlySlide
deriving DecidableEq, Repr

/-- Self-trade policy, from `openbook_v2::state::SelfTradeBehavior`. -/
inductive SelfTradeBehavior where
  | decrementTake
  | cancelProvide
  | abortTransaction
deriving DecidableEq, Repr

/-- The fields of the external `openbook_v2::state::Market` account snapshot that
the client reads. `base_decimals`/`quote_decimals` are `u8` in the source,
`base_lot_size`/`quote_lot_size` are `i64`. `maker_fees_floor` is the maker-fee
schedule of the external market type, a `u64 → u64` computation kept abstract
here (the claims do not depend on its definition). -/
structure Market where
  base_decimals : Nat
  quote_decimals : Nat
  base_lot_size : Int
  quote_lot_size : Int
  base_mint : Pubkey
  quote_mint : Pubkey
  bids : Pubkey
  asks : Pubkey
  event_heap : Pubkey
  oracle_a : Option Pubkey
  oracle_b : Option Pubkey
  market_base_vault : Pubkey
  market_quote_vault : Pubkey
  maker_fees_floor : Nat → Nat

/-- Modelled from the spec: `Market::get_vault_by_side` lives in the external
`openbook_v2` crate, not in this repository; per the spec's side-selection
sentence, bid orders reference the quote-side vault and ask orders the
base-side vault. -/
def Market.get_vault_by_side (m : Market) (side : Side) : Pubkey :=
  match side with
  | .bid => m.market_quote_vault
  | .ask => m.market_base_vault

/-- From `src/openbook/src/context.rs`: a market snapshot paired with its address. -/
structure MarketContext where
  address : Pubkey
  market : Market

/-- From `context.rs` lines 19-23:
`quote_size / (quote_lot_size as u64) + maker_fees_floor(quote_size)`,
with the `u64` sum wrapping modulo `2^64`. -/
def MarketContext.max_quote_lots_including_maker_fees
    (ctx : MarketContext) (quote_size : Nat) : Nat :=
  u64Mod (quote_size / i64AsU64 ctx.market.quote_lot_size
    + ctx.market.maker_fees_floor quote_size)

/-- From `context.rs` lines 25-27: `base_size / (base_lot_size as u64)`. -/
def MarketContext.max_base_lots (ctx : MarketContext) (base_size : Nat) : Nat :=
  base_size / i64AsU64 ctx.market.base_lot_size

/-- From `context.rs` lines 11-13: the USD quote wrapper multiplies by
`10u64.pow(6)` before delegating. -/
def MarketContext.max_quote_lots_including_maker_fees_from_usd
    (ctx : MarketContext) (quote_size_usd : Nat) : Nat :=
  ctx.max_quote_lots_including_maker_fees (u64Mod (quote_size_usd * 10 ^ 6))

/-- From `context.rs` lines 14-16: the code multiplies the argument by
`self.market.base_decimals as u64` (the decimal COUNT itself, not a power of
ten) before delegating to `max_base_lots`. -/
def MarketContext.max_base_lots_from_usd
    (ctx : MarketContext) (base_size : Nat) : Nat :=
  ctx.max_base_lots (u64Mod (base_size * ctx.market.base_decimals))

/-- The fields of `OBClient` (from `src/openbook/src/ob_client.rs`) that the
order-construction path reads. `owner_pubkey` is `self.owner()`. -/
structure OBClient where
  owner_pubkey : Pubkey
  quote_ata : Pubkey
  base_ata : Pubkey
  market_id : Pubkey
  open_orders_account : Pubkey
  market_info : Market
  context : MarketContext

/-- From `ob_client.rs` lines 615-622: the price factor is the `u64` INTEGER
division `base_factor / quote_factor` converted to `f64`; the product with the
limit price is cast to `i64` with Rust saturating-cast semantics. -/
def OBClient.native_price_to_lots_price (c : OBClient) (limit_price : ℚ) : Int :=
  let base_factor : Nat := u64Mod (10 ^ c.market_info.base_decimals)
  let quote_factor : Nat := u64Mod (10 ^ c.market_info.quote_decimals)
  let price_factor : ℚ := ((base_factor / quote_factor : Nat) : ℚ)
  i64SatCast (limit_price * price_factor)

/-- From `ob_client.rs` lines 624-628: `((quote_size as f64 / limit_price) *
base_factor) as u64`. A zero `limit_price` makes the `f64` division produce an
infinity (or NaN when `quote_size = 0`); multiplying an infinity by a zero
factor also yields NaN; the `as u64` cast maps `+∞` to `u64::MAX` and NaN
to `0`. -/
def OBClient.get_base_size_from_quote
    (c : OBClient) (quote_size : Nat) (limit_price : ℚ) : Nat :=
  let base_factor : Nat := u64Mod (10 ^ c.market_info.base_decimals)
  if limit_price = 0 then
    if quote_size = 0 ∨ base_factor = 0 then 0 else 2 ^ 64 - 1
  else u64SatCast ((quote_size : ℚ) / limit_price * (base_factor : ℚ))

/-- Account list of the `PlaceOrder` instruction, from
`openbook_v2::accounts::PlaceOrder` as filled in by `place_limit_order`. -/
structure PlaceOrderAccounts where
  open_orders_account : Pubkey
  open_orders_admin : Option Pubkey
  signer : Pubkey
  market : Pubkey
  bids : Pubkey
  asks : Pubkey
  event_heap : Pubkey
  oracle_a : Option Pubkey
  oracle_b : Option Pubkey
  user_token_account : Pubkey
  market_vault : Pubkey
  token_program : Pubkey
deriving DecidableEq, Repr

/-- Arguments of the `PlaceOrder` instruction, from `openbook_v2::PlaceOrderArgs`. -/
structure PlaceOrderArguments where
  side : Side
  price_lots : Int
  max_base_lots : Int
  max_quote_lots_including_fees : Int
  client_order_id : Nat
  order_type : PlaceOrderType
  expiry_timestamp : Nat
  self_trade_behavior : SelfTradeBehavior
  limit : Nat
deriving DecidableEq, Repr

/-- A built `PlaceOrder` instruction: target program, account list, payload. -/
structure PlaceOrderInstruction where
  program_id : Pubkey
  accounts : PlaceOrderAccounts
  args : PlaceOrderArguments
deriving DecidableEq, Repr

/-- From `ob_client.rs` lines 165-224. The clock reading `current_time`
(`get_unix_secs()`) and the randomly drawn client order id `oid`
(`random::<u64>()`) are made explicit arguments; the `u64` additions and the
`as i64` casts of the computed lot counts follow the source. -/
def OBClient.place_limit_order (c : OBClient) (current_time oid : Nat)
    (limit_price : ℚ) (quote_size : Nat) (side : Side) : PlaceOrderInstruction :=
  let price_lots := c.native_price_to_lots_price limit_price
  let max_quote_lots := c.context.max_quote_lots_including_maker_fees_from_usd quote_size
  let base_size := c.get_base_size_from_quote quote_size limit_price
  let max_base_lots := c.context.max_base_lots_from_usd base_size
  let ata := match side with | .bid => c.quote_ata | .ask => c.base_ata
  let vault := c.market_info.get_vault_by_side side
  { program_id := openbookProgramId
    accounts :=
      { open_orders_account := c.open_orders_account
        open_orders_admin := none
        signer := c.owner_pubkey
        market := c.market_id
        bids := c.market_info.bids
        asks := c.market_info.asks
        event_heap := c.market_info.event_heap
        oracle_a := c.market_info.oracle_a
        oracle_b := c.market_info.oracle_b
        user_token_account := ata
        market_vault := vault
        token_program := tokenProgramId }
    args :=
      { side := side
        price_lots := price_lots
        max_base_lots := u64AsI64 max_base_lots
        max_quote_lots_including_fees := u64AsI64 max_quote_lots
        client_order_id := oid
        order_type := .postOnly
        expiry_timestamp := u64Mod (current_time + 86400)
        self_trade_behavior := .abortTransaction
        limit := 12 } }

/-- From `ob_client.rs` lines 226-286: despite its name (and the `TODO: update
to market order inst` comment), the body is a verbatim copy of
`place_limit_order`. Translated separately and faithfully. -/
def OBClient.place_market_order (c : OBClient) (current_time oid : Nat)
    (limit_price : ℚ) (quote_size : Nat) (side : Side) : PlaceOrderInstruction :=
  let price_lots := c.native_price_to_lots_price limit_price
  let max_quote_lots := c.context.max_quote_lots_including_maker_fees_from_usd quote_size
  let base_size := c.get_base_size_from_quote quote_size limit_price
  let max_base_lots := c.context.max_base_lots_from_usd base_size
  let ata := match side with | .bid => c.quote_ata | .ask => c.base_ata
  let vault := c.market_info.get_vault_by_side side
  { program_id := openbookProgramId
    accounts :=
      { open_orders_account := c.open_orders_account
        open_orders_admin := none
        signer := c.owner_pubkey
        market := c.market_id
        bids := c.market_info.bids
        asks := c.market_info.asks
        event_heap := c.market_info.event_heap
        oracle_a := c.market_info.oracle_a
        oracle_b := c.market_info.oracle_b
        user_token_account := ata
        market_vault := vault
        token_program := tokenProgramId }
    args :=
      { side := side
        price_lots := price_lots
        max_base_lots := u64AsI64 max_base_lots
        max_quote_lots_including_fees := u64AsI64 max_quote_lots
        client_order_id := oid
        order_type := .postOnly
        expiry_timestamp := u64Mod (current_time + 86400)
        self_trade_behavior := .abortTransaction
        limit := 12 } }

/-- The fields of the remote `OpenOrdersAccount` state that
`find_or_create_account` reads: the numeric account index (`u32`) and the
human-readable name (`account.name()`). -/
structure OpenOrdersAccountInfo where
  account_num : Nat
  name : String
deriving DecidableEq, Repr

/-- From `ob_client.rs` line 401: the hard-coded target account name. -/
def openbook_account_name : String := "random"

/-- The comparison passed to `sort_by` in `find_or_create_account`:
ascending `account_num` (`partial_cmp` on `u32` is total). -/
def accountNumLe (a b : Pubkey × OpenOrdersAccountInfo) : Bool :=
  decide (a.2.account_num ≤ b.2.account_num)

/-- From `ob_client.rs` lines 411-416: sort the scanned tuples by
`account_num`, take the last (if any) and add one (`u32` addition), else `0`.
Rust's `sort_by` is a stable sort; any stable sort produces the same output,
so it is modelled with `List.mergeSort`. -/
def nextAccountNum (ts : List (Pubkey × OpenOrdersAccountInfo)) : Nat :=
  match (ts.mergeSort accountNumLe).getLast? with
  | some t => u32Mod (t.2.account_num + 1)
  | none => 0

/-- Outcome of one `find_or_create_account` call: the creation request issued
(account number and name), if any, and the address resolved from the re-scan.
`resolved = none` models the final `unwrap` panicking because no account of
the target name appeared in the second scan. -/
structure FindOrCreateResult where
  created : Option (Nat × String)
  resolved : Option Pubkey
deriving DecidableEq, Repr

/-- From `ob_client.rs` lines 398-431, with the two remote program-account
scans passed explicitly: `scan1` is the list fetched before the creation
decision, `scan2` the list fetched by the unconditional re-scan. If no tuple
of `scan1` carries the target name, a creation for `nextAccountNum scan1` is
issued; the result address is the first tuple of `scan2` with the target
name. -/
def find_or_create_account
    (scan1 scan2 : List (Pubkey × OpenOrdersAccountInfo)) : FindOrCreateResult :=
  let matched := scan1.find? (fun t => t.2.name == openbook_account_name)
  { created :=
      match matched with
      | some _ => none
      | none => some (nextAccountNum scan1, openbook_account_name)
    resolved :=
      (scan2.find? (fun t => t.2.name == openbook_account_name)).map (fun t => t.1) }

/-- The UTF-8 bytes of the fixed seed label `b"OpenOrders"` used in
`create_open_orders_account` (`ob_client.rs` line 473). -/
def openOrdersLabel : List Nat := ("OpenOrders".toUTF8.toList).map (fun b => b.toNat)

/-- Rust `u32::to_le_bytes`: the four little-endian bytes of `account_num`
(`ob_client.rs` line 475). -/
def u32LeBytes (n : Nat) : List Nat :=
  [n % 256, n / 256 % 256, n / 65536 % 256, n / 16777216 % 256]

/-- Value of a little-endian byte list (least significant byte first). -/
def leVal (bs : List Nat) : Nat := bs.foldr (fun b acc => b + 256 * acc) 0

/-- From `ob_client.rs` lines 471-479: the open-orders account address is
`Pubkey::find_program_address([b"OpenOrders", owner.pubkey(), account_num.to_le_bytes()],
openbook_v2::id()).0`. The external `find_program_address` routine (a
deterministic SHA-256-based search, no randomness) is passed as an explicit
function argument `fpa` from seeds and program id to the derived address. -/
def open_orders_account_address
    (fpa : List (List Nat) → Pubkey → Pubkey)
    (owner_key : List Nat) (account_num : Nat) : Pubkey :=
  fpa [openOrdersLabel, owner_key, u32LeBytes account_num] openbookProgramId

/-- Outcome of `get_token_balance` for a successfully fetched token-account
reply, as a function of the reply's optional `ui_amount` field. `panicked`
models the `r.ui_amount.unwrap()` on `ob_client.rs` line 636 aborting on a
reply that carries no balance. -/
inductive BalanceResult where
  | ok (amount : ℚ)
  | panicked
deriving DecidableEq

/-- From `ob_client.rs` lines 630-637: the code returns `Ok(r.ui_amount.unwrap())`;
an absent `ui_amount` makes the `unwrap` panic instead of producing a typed
error. -/
def get_token_balance (ui_amount : Option ℚ) : BalanceResult :=
  match ui_amount with
  | some v => .ok v
  | none => .panicked

/-- The largest `account_num` among the scanned tuples (`0` for an empty scan). -/
def maxAccountNum (ts : List (Pubkey × OpenOrdersAccountInfo)) : Nat :=
  (ts.map (fun t => t.2.account_num)).foldr max 0

/-- Sample market with `base_decimals = 9`, `quote_decimals = 6` and unit lot
sizes, a zero fee schedule, and distinct concrete addresses. -/
def mkt96 : Market where
  base_decimals := 9
  quote_decimals := 6
  base_lot_size := 1
  quote_lot_size := 1
  base_mint := 10
  quote_mint := 11
  bids := 12
  asks := 13
  event_heap := 14
  oracle_a := none
  oracle_b := none
  market_base_vault := 15
  market_quote_vault := 16
  maker_fees_floor := fun _ => 0

/-- Sample market context for `mkt96`. -/
def ctx96 : MarketContext where
  address := 20
  market := mkt96

/-- Sample client trading on `mkt96`. -/
def client96 : OBClient where
  owner_pubkey := 21
  quote_ata := 22
  base_ata := 23
  market_id := 20
  open_orders_account := 24
  market_info := mkt96
  context := ctx96

/-- Sample market with the decimal counts swapped: `base_decimals = 6`,
`quote_decimals = 9`. -/
def mkt69 : Market :=
  { mkt96 with base_decimals := 6, quote_decimals := 9 }

/-- Sample client trading on `mkt69`. -/
def client69 : OBClient :=
  { client96 with market_info := mkt69, context := { address := 20, market := mkt69 } }

/-! ### Helper lemmas about the machine-arithmetic model -/

theorem ratTrunc_nonpos {x : ℚ} (hx : x ≤ 0) : ratTrunc x ≤ 0 := by
  unfold ratTrunc
  split_ifs with h
  · have h0 : (0 : ℤ) ≤ ⌊(-x : ℚ)⌋ := Int.floor_nonneg.mpr (by linarith)
    omega
  · have hx0 : x = 0 := le_antisymm hx (not_lt.mp h)
    simp [hx0]

theorem ratTrunc_mono {x y : ℚ} (h : x ≤ y) : ratTrunc x ≤ ratTrunc y := by
  unfold ratTrunc
  split_ifs with hx hy hy
  · have : ⌊(-y : ℚ)⌋ ≤ ⌊(-x : ℚ)⌋ := Int.floor_mono (by linarith)
    omega
  · have h1 : (0 : ℤ) ≤ ⌊(-x : ℚ)⌋ := Int.floor_nonneg.mpr (by linarith)
    have h2 : (0 : ℤ) ≤ ⌊y⌋ := Int.floor_nonneg.mpr (not_lt.mp hy)
    omega
  · exact absurd (lt_of_le_of_lt h hy) hx
  · exact Int.floor_mono h

theorem ratTrunc_eq_floor {x : ℚ} (hx : 0 ≤ x) : ratTrunc x = ⌊x⌋ := by
  unfold ratTrunc
  rw [if_neg (not_lt.mpr hx)]

theorem i64SatCast_nonpos {x : ℚ} (hx : x ≤ 0) : i64SatCast x ≤ 0 := by
  have h := ratTrunc_nonpos hx
  unfold i64SatCast
  split_ifs <;> omega

theorem i64SatCast_mono {x y : ℚ} (h : x ≤ y) : i64SatCast x ≤ i64SatCast y := by
  have ht := ratTrunc_mono h
  unfold i64SatCast
  split_ifs <;> omega

theorem i64SatCast_eq_floor {x : ℚ} (h0 : 0 ≤ x) (hlt : x < 2 ^ 63) :
    i64SatCast x = ⌊x⌋ := by
  have ht : ratTrunc x = ⌊x⌋ := ratTrunc_eq_floor h0
  have hf0 : (0 : ℤ) ≤ ⌊x⌋ := Int.floor_nonneg.mpr h0
  have hfu : ⌊x⌋ < 2 ^ 63 := by
    have h1 : (⌊x⌋ : ℚ) ≤ x := Int.floor_le x
    have h2 : (⌊x⌋ : ℚ) < 2 ^ 63 := lt_of_le_of_lt h1 hlt
    exact_mod_cast h2
  unfold i64SatCast
  rw [ht]
  split_ifs <;> omega

theorem u64Mod_pow10 {d : Nat} (hd : d ≤ 19) : u64Mod (10 ^ d) = 10 ^ d := by
  unfold u64Mod
  exact Nat.mod_eq_of_lt
    (lt_of_le_of_lt (Nat.pow_le_pow_right (by norm_num) hd) (by norm_num))

/-! ### Helper lemmas about the sorted account scan -/

theorem le_foldr_max {l : List Nat} {a : Nat} (ha : a ∈ l) : a ≤ l.foldr max 0 := by
  induction l with
  | nil => cases ha
  | cons x xs ih =>
    rw [List.foldr_cons]
    rcases List.mem_cons.mp ha with rfl | h
    · exact le_max_left _ _
    · exact le_trans (ih h) (le_max_right _ _)

theorem foldr_max_le {l : List Nat} {b : Nat} (h : ∀ a ∈ l, a ≤ b) :
    l.foldr max 0 ≤ b := by
  induction l with
  | nil => simp
  | cons x xs ih =>
    rw [List.foldr_cons]
    exact max_le (h x (List.mem_cons_self x xs))
      (ih fun a ha => h a (List.mem_cons_of_mem _ ha))

theorem pairwise_getLast {α : Type} {R : α → α → Prop} (l : List α) :
    ∀ (h : l ≠ []), l.Pairwise R → ∀ a ∈ l, a = l.getLast h ∨ R a (l.getLast h) := by
  induction l with
  | nil => intro h; exact absurd rfl h
  | cons x xs ih =>
    intro h hp a ha
    cases xs with
    | nil =>
      rcases List.mem_cons.mp ha with rfl | hmem
      · left; rfl
      · cases hmem
    | cons y ys =>
      have hne : (y :: ys) ≠ [] := by simp
      rw [List.getLast_cons hne]
      rcases List.mem_cons.mp ha with rfl | hmem
      · right; exact (List.pairwise_cons.mp hp).1 _ (List.getLast_mem hne)
      · exact ih hne (List.pairwise_cons.mp hp).2 a hmem

theorem nextAccountNum_eq (ts : List (Pubkey × OpenOrdersAccountInfo))
    (hne : ts ≠ []) (hbound : maxAccountNum ts + 1 < 2 ^ 32) :
    nextAccountNum ts = maxAccountNum ts + 1 := by
  have hperm := List.mergeSort_perm ts accountNumLe
  have hsne : ts.mergeSort accountNumLe ≠ [] := by
    intro h0
    apply hne
    have hlen := hperm.length_eq
    rw [h0] at hlen
    exact List.eq_nil_of_length_eq_zero hlen.symm
  have hsorted : (ts.mergeSort accountNumLe).Pairwise (fun a b => accountNumLe a b = true) :=
    List.sorted_mergeSort
      (by intro a b c hab hbc; simp only [accountNumLe, decide_eq_true_eq] at *; omega)
      (by intro a b; simp only [accountNumLe, Bool.or_eq_true, decide_eq_true_eq]; omega)
      ts
  have hlast : (ts.mergeSort accountNumLe).getLast? =
      some ((ts.mergeSort accountNumLe).getLast hsne) :=
    List.getLast?_eq_getLast _ hsne
  have hxmem : (ts.mergeSort accountNumLe).getLast hsne ∈ ts :=
    hperm.mem_iff.mp (List.getLast_mem hsne)
  have hall : ∀ a ∈ ts,
      a.2.account_num ≤ ((ts.mergeSort accountNumLe).getLast hsne).2.account_num := by
    intro a ha
    have ha' : a ∈ ts.mergeSort accountNumLe := hperm.mem_iff.mpr ha
    rcases pairwise_getLast _ hsne hsorted a ha' with heq | hR
    · rw [heq]
    · simpa [accountNumLe] using hR
  have hmax : maxAccountNum ts = ((ts.mergeSort accountNumLe).getLast hsne).2.account_num := by
    apply le_antisymm
    · apply foldr_max_le
      intro v hv
      rcases List.mem_map.mp hv with ⟨a, ha, rfl⟩
      exact hall a ha
    · exact le_foldr_max (List.mem_map_of_mem _ hxmem)
  unfold nextAccountNum
  rw [hlast]
  show u32Mod (((ts.mergeSort accountNumLe).getLast hsne).2.account_num + 1)
    = maxAccountNum ts + 1
  rw [hmax] at hbound ⊢
  unfold u32Mod
  exact Nat.mod_eq_of_lt hbound

theorem ratTrunc_intCast (n : ℤ) : ratTrunc (n : ℚ) = n := by
  unfold ratTrunc
  split_ifs with h
  · rw [← Int.cast_neg, Int.floor_intCast]
    omega
  · rw [Int.floor_intCast]

theorem i64SatCast_intCast {n : ℤ} (h1 : -(2 ^ 63) ≤ n) (h2 : n ≤ 2 ^ 63 - 1) :
    i64SatCast (n : ℚ) = n := by
  unfold i64SatCast
  rw [ratTrunc_intCast]
  split_ifs <;> omega

/-! ### Claim theorems -/

/-- Claim C1 (code bug): at a market with `base_decimals = 9` and unit base lot
size, the USD base wrapper applied to `1` yields `9` — the code multiplies by
the decimal count `base_decimals`, not by the scale `10 ^ base_decimals` as the
spec's wrapper sentence (and the sibling quote wrapper, which multiplies by
`10u64.pow(6)`) requires, under which the result would be `10 ^ 9`. -/
theorem max_base_lots_from_usd_bug_eval :
    ctx96.max_base_lots_from_usd 1 = 9
    ∧ ctx96.max_base_lots (1 * 10 ^ 9) = 10 ^ 9
    ∧ (9 : Nat) ≠ 10 ^ 9 := by
  refine ⟨by decide, by decide, by norm_num⟩

/-- Claim C4: with a positive `quote_lot_size`, and absent `u64` overflow of the
sum, `max_quote_lots_including_maker_fees` equals the floored quote-lot count
plus the maker-fee floor, and the fee term never decreases the reservation. -/
theorem max_quote_lots_including_maker_fees_spec
    (ctx : MarketContext) (q : Nat)
    (hpos : 0 < ctx.market.quote_lot_size)
    (hi64 : ctx.market.quote_lot_size < 2 ^ 63)
    (hnof : q / ctx.market.quote_lot_size.toNat + ctx.market.maker_fees_floor q < 2 ^ 64) :
    ctx.max_quote_lots_including_maker_fees q
      = q / ctx.market.quote_lot_size.toNat + ctx.market.maker_fees_floor q
    ∧ q / ctx.market.quote_lot_size.toNat ≤ ctx.max_quote_lots_including_maker_fees q := by
  have hcast : i64AsU64 ctx.market.quote_lot_size = ctx.market.quote_lot_size.toNat := by
    unfold i64AsU64
    rw [Int.emod_eq_of_lt (le_of_lt hpos) (lt_trans hi64 (by norm_num))]
  have heq : ctx.max_quote_lots_including_maker_fees q
      = q / ctx.market.quote_lot_size.toNat + ctx.market.maker_fees_floor q := by
    unfold MarketContext.max_quote_lots_including_maker_fees u64Mod
    rw [hcast]
    exact Nat.mod_eq_of_lt hnof
  exact ⟨heq, heq ▸ Nat.le_add_right _ _⟩

/-- Witness for C4 at `ctx96` with `q = 1000`. -/
theorem max_quote_lots_including_maker_fees_spec_witness :
    (0 : Int) < ctx96.market.quote_lot_size
    ∧ (1000 / ctx96.market.quote_lot_size.toNat + ctx96.market.maker_fees_floor 1000 < 2 ^ 64)
    ∧ ctx96.max_quote_lots_including_maker_fees 1000
        = 1000 / ctx96.market.quote_lot_size.toNat + ctx96.market.maker_fees_floor 1000
    ∧ 1000 / ctx96.market.quote_lot_size.toNat ≤ ctx96.max_quote_lots_including_maker_fees 1000 :=
  ⟨by decide, by decide,
    max_quote_lots_including_maker_fees_spec ctx96 1000 (by decide) (by decide) (by decide)⟩

/-- Claim C5: when no scanned account carries the target name, the creation is
issued for account number `max + 1` (`0` for an empty scan), and the returned
address is resolved from the re-scan by name. -/
theorem find_or_create_account_creates_next
    (scan1 scan2 : List (Pubkey × OpenOrdersAccountInfo))
    (hno : scan1.find? (fun t => t.2.name == openbook_account_name) = none)
    (hbound : maxAccountNum scan1 + 1 < 2 ^ 32) :
    (find_or_create_account scan1 scan2).created
      = some ((if scan1 = [] then 0 else maxAccountNum scan1 + 1), openbook_account_name)
    ∧ (find_or_create_account scan1 scan2).resolved
      = (scan2.find? (fun t => t.2.name == openbook_account_name)).map (fun t => t.1) := by
  refine ⟨?_, rfl⟩
  simp only [find_or_create_account, hno]
  by_cases hne : scan1 = []
  · subst hne
    simp [nextAccountNum, List.mergeSort_nil]
  · rw [if_neg hne, nextAccountNum_eq scan1 hne hbound]

/-- Witness for C5: a two-account scan (numbers 2 and 5, neither named
`random`) leads to a creation for account number 6, resolved from the
re-scan. -/
theorem find_or_create_account_creates_next_witness :
    ([((30 : Pubkey), ⟨2, "a"⟩), (31, ⟨5, "b"⟩)] :
        List (Pubkey × OpenOrdersAccountInfo)).find?
      (fun t => t.2.name == openbook_account_name) = none
    ∧ (find_or_create_account [(30, ⟨2, "a"⟩), (31, ⟨5, "b"⟩)] [(32, ⟨6, "random"⟩)]).created
      = some ((if ([((30 : Pubkey), ⟨2, "a"⟩), (31, ⟨5, "b"⟩)] :
          List (Pubkey × OpenOrdersAccountInfo)) = [] then 0
        else maxAccountNum [(30, ⟨2, "a"⟩), (31, ⟨5, "b"⟩)] + 1), openbook_account_name)
    ∧ (find_or_create_account [(30, ⟨2, "a"⟩), (31, ⟨5, "b"⟩)] [(32, ⟨6, "random"⟩)]).resolved
      = (([((32 : Pubkey), ⟨6, "random"⟩)] :
          List (Pubkey × OpenOrdersAccountInfo)).find?
        (fun t => t.2.name == openbook_account_name)).map (fun t => t.1) :=
  ⟨by decide,
    (find_or_create_account_creates_next _ _ (by decide) (by decide)).1,
    (find_or_create_account_creates_next _ _ (by decide) (by decide)).2⟩

/-- Claim C6: for an unchanged remote state already holding an account with the
target name, two calls resolve to the same address, resolution succeeds, and
neither call (in particular not the second) issues a creation. -/
theorem find_or_create_account_idempotent
    (scanA scanB : List (Pubkey × OpenOrdersAccountInfo))
    (hsame : scanA = scanB)
    (hmatch : (scanA.find? (fun t => t.2.name == openbook_account_name)).isSome = true) :
    (find_or_create_account scanA scanA).resolved
        = (find_or_create_account scanB scanB).resolved
    ∧ (find_or_create_account scanA scanA).created = none
    ∧ (find_or_create_account scanB scanB).created = none
    ∧ (find_or_create_account scanA scanA).resolved.isSome = true := by
  subst hsame
  rcases Option.isSome_iff_exists.mp hmatch with ⟨t, ht⟩
  refine ⟨rfl, ?_, ?_, ?_⟩
  · simp only [find_or_create_account, ht]
  · simp only [find_or_create_account, ht]
  · simp only [find_or_create_account, ht, Option.map_some', Option.isSome_some]

/-- Witness for C6 on a one-account state named `random`. -/
theorem find_or_create_account_idempotent_witness :
    (([((40 : Pubkey), ⟨0, "random"⟩)] :
        List (Pubkey × OpenOrdersAccountInfo)).find?
      (fun t => t.2.name == openbook_account_name)).isSome = true
    ∧ (find_or_create_account [(40, ⟨0, "random"⟩)] [(40, ⟨0, "random"⟩)]).resolved
        = (find_or_create_account [(40, ⟨0, "random"⟩)] [(40, ⟨0, "random"⟩)]).resolved
    ∧ (find_or_create_account [(40, ⟨0, "random"⟩)] [(40, ⟨0, "random"⟩)]).created = none
    ∧ (find_or_create_account [(40, ⟨0, "random"⟩)] [(40, ⟨0, "random"⟩)]).resolved.isSome
        = true :=
  ⟨by decide,
    (find_or_create_account_idempotent _ _ rfl (by decide)).1,
    (find_or_create_account_idempotent _ _ rfl (by decide)).2.1,
    (find_or_create_account_idempotent _ _ rfl (by decide)).2.2.2⟩

/-- Claim C7: the derived open-orders account address is exactly the
program-derived address of the fixed `OpenOrders` label bytes, the owner key
bytes, and the four little-endian bytes of `account_num` (whose little-endian
value is `account_num mod 2^32`), under the OpenBook program id; the
derivation is a pure function of these inputs with no randomness. -/
theorem open_orders_account_address_formula
    (fpa : List (List Nat) → Pubkey → Pubkey) (owner_key : List Nat) (n : Nat) :
    open_orders_account_address fpa owner_key n
      = fpa [openOrdersLabel, owner_key, u32LeBytes n] openbookProgramId
    ∧ (u32LeBytes n).length = 4
    ∧ leVal (u32LeBytes n) = n % 2 ^ 32 := by
  refine ⟨rfl, rfl, ?_⟩
  unfold leVal u32LeBytes
  simp only [List.foldr_cons, List.foldr_nil]
  omega

/-- Claim C8 (code bug): evaluated on a reply whose `ui_amount` is absent,
`get_token_balance` panics (aborts) via `Option::unwrap` instead of returning
a typed error. -/
theorem get_token_balance_panics_on_missing_balance :
    get_token_balance none = BalanceResult.panicked := rfl

/-- Claim C10: under equal clock readings and equal client order identifiers,
`place_market_order` builds exactly the instruction built by
`place_limit_order` — same program id, account list and `PlaceOrder`
arguments. -/
theorem place_market_order_eq_place_limit_order (c : OBClient) (t oid : Nat)
    (p : ℚ) (q : Nat) (side : Side) :
    c.place_market_order t oid p q side = c.place_limit_order t oid p q side := rfl

/-- Claim C9: every built `PlaceOrder` instruction carries the post-only order
type, an expiry of the construction-time clock plus the fixed 86400-second
horizon, the abort-transaction self-trade policy, and the fixed fill limit 12;
a bid attaches the quote-side user token account and vault, an ask the
base-side ones. -/
theorem place_limit_order_fields (c : OBClient) (t oid : Nat) (p : ℚ) (q : Nat)
    (side : Side) (ht : t + 86400 < 2 ^ 64) :
    (c.place_limit_order t oid p q side).args.order_type = PlaceOrderType.postOnly
    ∧ (c.place_limit_order t oid p q side).args.expiry_timestamp = t + 86400
    ∧ (c.place_limit_order t oid p q side).args.self_trade_behavior
        = SelfTradeBehavior.abortTransaction
    ∧ (c.place_limit_order t oid p q side).args.limit = 12
    ∧ (c.place_limit_order t oid p q side).accounts.user_token_account
        = (match side with | .bid => c.quote_ata | .ask => c.base_ata)
    ∧ (c.place_limit_order t oid p q side).accounts.market_vault
        = (match side with
           | .bid => c.market_info.market_quote_vault
           | .ask => c.market_info.market_base_vault) := by
  refine ⟨rfl, ?_, rfl, rfl, ?_, ?_⟩
  · show u64Mod (t + 86400) = t + 86400
    exact Nat.mod_eq_of_lt ht
  · cases side <;> rfl
  · cases side <;> rfl

/-- Witness for C9 at `client96`, clock 100, order id 7, a bid. -/
theorem place_limit_order_fields_witness :
    100 + 86400 < 2 ^ 64
    ∧ ((client96.place_limit_order 100 7 1 50 Side.bid).args.order_type
          = PlaceOrderType.postOnly
      ∧ (client96.place_limit_order 100 7 1 50 Side.bid).args.expiry_timestamp = 100 + 86400
      ∧ (client96.place_limit_order 100 7 1 50 Side.bid).args.self_trade_behavior
          = SelfTradeBehavior.abortTransaction
      ∧ (client96.place_limit_order 100 7 1 50 Side.bid).args.limit = 12
      ∧ (client96.place_limit_order 100 7 1 50 Side.bid).accounts.user_token_account
          = client96.quote_ata
      ∧ (client96.place_limit_order 100 7 1 50 Side.bid).accounts.market_vault
          = client96.market_info.market_quote_vault) :=
  ⟨by decide, place_limit_order_fields client96 100 7 1 50 Side.bid (by decide)⟩

/-- Claim C2 counterexample: at `client96` (9 base decimals, 6 quote decimals)
the conversion operations return plain clamped or saturated numeric results on
bad prices instead of reporting an error: a negative price yields the numeric
lots price `-1000`, and a zero divisor price yields the saturated base size
`u64::MAX = 2^64 - 1`. -/
theorem conversion_engine_counterexample :
    client96.native_price_to_lots_price (-1) = -1000
    ∧ client96.get_base_size_from_quote 1000000 0 = 2 ^ 64 - 1 := by
  constructor
  · have h : client96.native_price_to_lots_price (-1)
        = i64SatCast ((-1) * ((10 ^ 9 % 2 ^ 64 / (10 ^ 6 % 2 ^ 64) : Nat) : ℚ)) := rfl
    rw [h]
    have h2 : ((10 ^ 9 % 2 ^ 64 / (10 ^ 6 % 2 ^ 64) : Nat) : ℚ) = 1000 := by norm_num
    rw [h2]
    have h3 : (-1 : ℚ) * 1000 = ((-1000 : ℤ) : ℚ) := by norm_num
    rw [h3, i64SatCast_intCast (by decide) (by decide)]
  · simp only [OBClient.get_base_size_from_quote]
    rw [if_pos trivial, if_neg]
    push_neg
    exact ⟨by norm_num, by decide⟩

/-- Claim C2 (amended): the Conversion Engine never reports an error — on a
negative limit price `native_price_to_lots_price` returns a non-positive
clamped numeric value, and on a zero divisor price with a positive quote size
(and nonzero base factor) `get_base_size_from_quote` returns the saturated
value `u64::MAX`. -/
theorem conversion_engine_clamps (c : OBClient) (p : ℚ) (q : Nat)
    (hp : p < 0) (hq : q ≠ 0)
    (hbf : u64Mod (10 ^ c.market_info.base_decimals) ≠ 0) :
    c.native_price_to_lots_price p ≤ 0
    ∧ c.get_base_size_from_quote q 0 = 2 ^ 64 - 1 := by
  constructor
  · have hf : (0 : ℚ) ≤ ((u64Mod (10 ^ c.market_info.base_decimals)
        / u64Mod (10 ^ c.market_info.quote_decimals) : Nat) : ℚ) := Nat.cast_nonneg _
    exact i64SatCast_nonpos (mul_nonpos_iff.mpr (Or.inr ⟨hp.le, hf⟩))
  · simp only [OBClient.get_base_size_from_quote]
    rw [if_pos trivial, if_neg]
    push_neg
    exact ⟨hq, hbf⟩

/-- Witness for C2 (amended) at `client96`, price `-1`, quote size 5. -/
theorem conversion_engine_clamps_witness :
    (-1 : ℚ) < 0
    ∧ u64Mod (10 ^ client96.market_info.base_decimals) ≠ 0
    ∧ (client96.native_price_to_lots_price (-1) ≤ 0
      ∧ client96.get_base_size_from_quote 5 0 = 2 ^ 64 - 1) :=
  ⟨by norm_num, by decide, conversion_engine_clamps client96 (-1) 5 (by norm_num)
    (by decide) (by decide)⟩

/-- Claim C3 counterexample: at `client69` (`base_decimals = 6 <
quote_decimals = 9`) the code's integer division `base_factor / quote_factor`
truncates the price factor to zero, so `native_price_to_lots_price 1000`
returns `0` while the claimed formula `floor(price * 10^bd / 10^qd)` gives
`1`. -/
theorem native_price_int_div_counterexample :
    client69.native_price_to_lots_price 1000 = 0
    ∧ ⌊(1000 : ℚ) * 10 ^ 6 / 10 ^ 9⌋ = 1
    ∧ (0 : ℤ) ≠ 1 := by
  refine ⟨?_, by norm_num, by decide⟩
  have h : client69.native_price_to_lots_price 1000
      = i64SatCast ((1000) * ((10 ^ 6 % 2 ^ 64 / (10 ^ 9 % 2 ^ 64) : Nat) : ℚ)) := rfl
  rw [h]
  have h2 : ((10 ^ 6 % 2 ^ 64 / (10 ^ 9 % 2 ^ 64) : Nat) : ℚ) = 0 := by norm_num
  rw [h2, mul_zero]
  have h3 : (0 : ℚ) = ((0 : ℤ) : ℚ) := by norm_num
  rw [h3, i64SatCast_intCast (by decide) (by decide)]

/-- Claim C3 (amended): `native_price_to_lots_price` is monotone non-decreasing
in the price for every market; and on markets with `quote_decimals ≤
base_decimals ≤ 19` it equals `floor(price * 10^baseDecimals /
10^quoteDecimals)` for every positive price whose scaled value stays below
`2^63` (the saturation bound of the `as i64` cast). -/
theorem native_price_to_lots_price_spec (c : OBClient) (p1 p2 p : ℚ)
    (hmono : p1 ≤ p2)
    (hdq : c.market_info.quote_decimals ≤ c.market_info.base_decimals)
    (hdb : c.market_info.base_decimals ≤ 19)
    (hp : 0 < p)
    (hrange : p * 10 ^ (c.market_info.base_decimals - c.market_info.quote_decimals)
      < 2 ^ 63) :
    c.native_price_to_lots_price p1 ≤ c.native_price_to_lots_price p2
    ∧ c.native_price_to_lots_price p
        = ⌊p * 10 ^ c.market_info.base_decimals / 10 ^ c.market_info.quote_decimals⌋ := by
  constructor
  · have hf : (0 : ℚ) ≤ ((u64Mod (10 ^ c.market_info.base_decimals)
        / u64Mod (10 ^ c.market_info.quote_decimals) : Nat) : ℚ) := Nat.cast_nonneg _
    exact i64SatCast_mono (mul_le_mul_of_nonneg_right hmono hf)
  · have hqd : c.market_info.quote_decimals ≤ 19 := le_trans hdq hdb
    have hfactor : (u64Mod (10 ^ c.market_info.base_decimals)
          / u64Mod (10 ^ c.market_info.quote_decimals) : Nat)
        = 10 ^ (c.market_info.base_decimals - c.market_info.quote_decimals) := by
      rw [u64Mod_pow10 hdb, u64Mod_pow10 hqd]
      exact Nat.pow_div hdq (by norm_num)
    have hcast : ((u64Mod (10 ^ c.market_info.base_decimals)
          / u64Mod (10 ^ c.market_info.quote_decimals) : Nat) : ℚ)
        = 10 ^ (c.market_info.base_decimals - c.market_info.quote_decimals) := by
      rw [hfactor]
      push_cast
      ring
    have hx0 : (0 : ℚ)
        ≤ p * 10 ^ (c.market_info.base_decimals - c.market_info.quote_decimals) := by
      positivity
    have heq : c.native_price_to_lots_price p
        = ⌊p * 10 ^ (c.market_info.base_decimals - c.market_info.quote_decimals)⌋ := by
      show i64SatCast (p * ((u64Mod (10 ^ c.market_info.base_decimals)
          / u64Mod (10 ^ c.market_info.quote_decimals) : Nat) : ℚ)) = _
      rw [hcast]
      exact i64SatCast_eq_floor hx0 hrange
    rw [heq]
    congr 1
    have hpow : (10 : ℚ) ^ (c.market_info.base_decimals - c.market_info.quote_decimals)
        = 10 ^ c.market_info.base_decimals / 10 ^ c.market_info.quote_decimals := by
      rw [eq_div_iff (by positivity : (10 : ℚ) ^ c.market_info.quote_decimals ≠ 0),
        ← pow_add]
      congr 1
      omega
    rw [hpow, mul_div_assoc]

/-- Witness for C3 at `client96`: monotone between prices 1 and 2, and
`native_price_to_lots_price (3/2) = 1500`, the spec's concrete instance. -/
theorem native_price_to_lots_price_spec_witness :
    (0 : ℚ) < 3 / 2
    ∧ client96.native_price_to_lots_price 1 ≤ client96.native_price_to_lots_price 2
    ∧ client96.native_price_to_lots_price (3 / 2) = 1500 := by
  have h := native_price_to_lots_price_spec client96 1 2 (3 / 2) (by norm_num)
    (by decide) (by decide) (by norm_num) (by norm_num [client96, mkt96])
  exact ⟨by norm_num, h.1, h.2.trans (by norm_num [client96, mkt96])⟩

end OpenBook
